import Mathlib

/-!
Verification of the guitar tablature rendering engine of the
`guitar-pro-tracks-builder` repository: the tab line builder
(`StringsView.buildTabLines`), the wrapped-row layout splitter
(`renderWrappedView`), the tuplet bracket computation
(`shouldShowTupletBracket`), the measure-label numbering, the ASCII
`TablatureView` label selection, and the pitch namer
(`midiToNoteName` / `noteNameToMidi`).

Each definition is a shallow embedding of the corresponding TypeScript
function; JavaScript `undefined` becomes `Option.none`, JavaScript `||`
on possibly-falsy values becomes an explicit falsy-aware choice, and a
JavaScript runtime `TypeError` (property access on `undefined`) becomes
an explicit `Except.error`.
-/

namespace GuitarTab

/-- Decidable equality for `Except`, used to evaluate the embedded
fallible functions on concrete inputs. -/
instance {ε α : Type} [DecidableEq ε] [DecidableEq α] :
    DecidableEq (Except ε α) := fun a b =>
  match a, b with
  | .ok x, .ok y =>
      if h : x = y then isTrue (by rw [h])
      else isFalse (by intro hc; cases hc; exact h rfl)
  | .error x, .error y =>
      if h : x = y then isTrue (by rw [h])
      else isFalse (by intro hc; cases hc; exact h rfl)
  | .ok _, .error _ => isFalse (by intro hc; cases hc)
  | .error _, .ok _ => isFalse (by intro hc; cases hc)

/-! ## Pitch namer (modelled from the spec)

The repository imports `midiToNoteName` and `noteNameToMidi` from
`@/features/tracks/converters`; that module's source file is not part of
the provided sources (only its callers and its re-export in the feature
index are), so the two functions are modelled from the spec. -/

/-- Modelled from the spec: the canonical sharp-preferred name of a
pitch class in [0, 12) — C, C#, D, D#, E, F, F#, G, G#, A, A#, B (spec
section 4.1; the source module `src/features/tracks/converters` is
missing from the sources). -/
def pitchClassName (c : Nat) : String :=
  if c = 0 then "C"
  else if c = 1 then "C#"
  else if c = 2 then "D"
  else if c = 3 then "D#"
  else if c = 4 then "E"
  else if c = 5 then "F"
  else if c = 6 then "F#"
  else if c = 7 then "G"
  else if c = 8 then "G#"
  else if c = 9 then "A"
  else if c = 10 then "A#"
  else "B"

/-- Modelled from the spec: `midiToNoteName` maps pitch mod 12 to a
sharp-preferred pitch-class name concatenated with the octave
`floor(pitch / 12) - 1` (spec section 4.1; the source module
`src/features/tracks/converters` is missing from the sources). -/
def midiToNoteName (midi : Nat) : String :=
  pitchClassName (midi % 12) ++ toString ((midi : Int) / 12 - 1)

/-- Error raised by `noteNameToMidi` on unparseable input (spec
section 7). -/
inductive NoteNameError where
  | invalidNoteName
deriving DecidableEq

/-- Modelled from the spec: lookup table from pitch-class spelling to
semitone value, including enharmonic flat names (spec section 4.1). -/
def PITCH_CLASSES : List (String × Nat) :=
  [("C", 0), ("C#", 1), ("Db", 1), ("D", 2), ("D#", 3), ("Eb", 3),
   ("E", 4), ("F", 5), ("F#", 6), ("Gb", 6), ("G", 7), ("G#", 8),
   ("Ab", 8), ("A", 9), ("A#", 10), ("Bb", 10), ("B", 11)]

/-- Digits-to-number accumulation for the octave part of a note name. -/
def digitsToNat (cs : List Char) : Nat :=
  cs.foldl (fun a c => a * 10 + (c.toNat - 48)) 0

/-- Modelled from the spec: parse the octave suffix of a note name; a
leading minus sign is accepted so that the names `midiToNoteName`
produces for pitches below 12 (octave -1) round-trip, as required by the
spec's round-trip property (spec section 8). -/
def parseOctave (cs : List Char) : Option Int :=
  match cs with
  | '-' :: rest =>
      if !rest.isEmpty && rest.all Char.isDigit then
        some (-(digitsToNat rest : Int))
      else none
  | _ =>
      if !cs.isEmpty && cs.all Char.isDigit then
        some ((digitsToNat cs : Int))
      else none

/-- Modelled from the spec: split a note name into its pitch-class
spelling `[A-G](#|b)?` and the remaining octave characters (spec
section 4.1). -/
def splitNoteName (cs : List Char) : Option (String × List Char) :=
  match cs with
  | [] => none
  | c :: rest =>
      if 'A' ≤ c ∧ c ≤ 'G' then
        match rest with
        | [] => some (String.mk [c], [])
        | a :: rest2 =>
            if a = '#' ∨ a = 'b' then some (String.mk [c, a], rest2)
            else some (String.mk [c], rest)
      else none

/-- Modelled from the spec: `noteNameToMidi` parses
`[A-G](#|b)?<octave>` using the flat-inclusive lookup table and fails
with `InvalidNoteName` when the pattern does not match or the spelling
is unrecognized (spec section 4.1). -/
def noteNameToMidi (name : String) : Except NoteNameError Int :=
  match splitNoteName name.toList with
  | some (pc, rest) =>
      match PITCH_CLASSES.lookup pc, parseOctave rest with
      | some v, some oct => .ok ((oct + 1) * 12 + v)
      | _, _ => .error .invalidNoteName
  | none => .error .invalidNoteName

/-! ## Data model

Typed counterpart of the `any`-typed track structure consumed by the
components (`track.measures[].beats[]`, each beat with a flat `notes[]`
or nested `voices[].notes[]`), and of the `TabNote` cell interface of
`TablatureView`. Fields that may be `undefined` in JavaScript are
`Option`; boolean flags read through `|| false` are plain `Bool`. -/

/-- Tuplet metadata `(enters, times)` of a cell. -/
structure Tuplet where
  enters : Nat
  times : Nat
deriving DecidableEq

/-- The `fret` field of a `TabNote`: a number for played notes, or a
marker string (`"-"` for rests, `"|"` for measure separators). -/
inductive FretValue where
  | num (n : Int)
  | mark (s : String)
deriving DecidableEq

/-- A tablature cell (the `TabNote` interface of `TablatureView`). -/
structure TabNote where
  fret : FretValue
  technique : Option String := none
  isMeasureSeparator : Bool := false
  duration : Option String := none
  tuplet : Option Tuplet := none
  legato : Bool := false
  accent : Bool := false
  heavy_accent : Bool := false
  velocity : Option Nat := none
  muted : Bool := false
  ghost : Bool := false
  harmonic : Bool := false
  palm_mute : Bool := false
  staccato : Bool := false
  let_ring : Bool := false
  vibrato : Bool := false
  tied : Bool := false
  bend_value : Option Int := none
  slide_type : Option String := none
  value : Option Nat := none
deriving DecidableEq

/-- A note of the parsed track structure (`string` is 1-based). -/
structure NoteData where
  string : Nat
  fret : Int
  technique : Option String := none
  effect : Option String := none
  articulation : Option String := none
  duration : Option String := none
  legato : Bool := false
  accent : Bool := false
  accentuated : Bool := false
  heavy_accent : Bool := false
  velocity : Option Nat := none
  muted : Bool := false
  ghost : Bool := false
  harmonic : Bool := false
  palm_mute : Bool := false
  staccato : Bool := false
  let_ring : Bool := false
  vibrato : Bool := false
  tied : Bool := false
  bend_value : Option Int := none
  slide_type : Option String := none
  value : Option Nat := none
deriving DecidableEq

/-- One voice of a beat. -/
structure Voice where
  notes : Option (List NoteData) := none
deriving DecidableEq

/-- One beat of a measure. -/
structure Beat where
  notes : Option (List NoteData) := none
  voices : Option (List Voice) := none
  duration : Option String := none
  velocity : Option Nat := none
deriving DecidableEq

/-- One measure of a track. -/
structure Measure where
  beats : Option (List Beat) := none
deriving DecidableEq

/-- One tuning entry `{string_number, value}`. -/
structure TuningEntry where
  string_number : Nat
  value : Nat
deriving DecidableEq

/-- The track object consumed by `StringsView`. -/
structure Track where
  strings : Option Nat := none
  string_count : Option Nat := none
  tuning : Option (List TuningEntry) := none
  measures : Option (List Measure) := none
deriving DecidableEq

/-! ## JavaScript-semantics helpers -/

/-- JavaScript `a || b` where `a` is an optional string: an absent or
empty string falls through to `b`. -/
def jsOrS (a b : Option String) : Option String :=
  match a with
  | some s => if s = "" then b else some s
  | none => b

/-- JavaScript `a || b` where `a` is an optional number: an absent or
zero number falls through to `b`. -/
def jsOrN (a b : Option Nat) : Option Nat :=
  match a with
  | some n => if n = 0 then b else some n
  | none => b

/-- JavaScript `a || d` for the numeric-with-default chains such as
`track.strings || track.string_count || 6` (zero is falsy). -/
def jsOrD (a : Option Nat) (d : Nat) : Nat :=
  match a with
  | some n => if n = 0 then d else n
  | none => d

/-- A JavaScript runtime error surfaced by the embedding (property
access on `undefined`). -/
inductive JsError where
  | typeError
deriving DecidableEq

/-! ## Tab line builder (`buildTabLines` inside `StringsView`)

Two source variants exist: `src/features/tracks/components/strings-view.tsx`
searches the beat's flat `notes` array, `src/unnamed/part_001` searches
nested `voices[].notes`. Both push one cell per string per beat and one
separator per string per measure; they differ only in the note search
and in which note fields the cell carries. -/

/-- The measure separator cell `{ fret: "|", isMeasureSeparator: true }`. -/
def sepCell : TabNote :=
  { fret := .mark "|", isMeasureSeparator := true }

/-- The rest cell `{ fret: "-", duration: beat.duration }` pushed when
no note matches the string. -/
def restCell (beat : Beat) : TabNote :=
  { fret := .mark "-", duration := beat.duration }

/-- The `Note` cell pushed by the flat-`notes` variant
(`strings-view.tsx` lines 49-56). -/
def noteCellNotes (beat : Beat) (n : NoteData) : TabNote :=
  { fret := .num n.fret
    technique := jsOrS n.technique (jsOrS n.effect n.articulation)
    duration := jsOrS beat.duration n.duration
    legato := n.legato
    accent := n.accent || n.accentuated
    velocity := jsOrN n.velocity beat.velocity }

/-- The `Note` cell pushed by the voices variant
(`src/unnamed/part_001` lines 60-79). -/
def noteCellVoices (beat : Beat) (n : NoteData) : TabNote :=
  { fret := .num n.fret
    technique := jsOrS n.technique (jsOrS n.effect n.articulation)
    duration := jsOrS beat.duration n.duration
    legato := n.legato
    accent := n.accent
    heavy_accent := n.heavy_accent
    velocity := n.velocity
    muted := n.muted
    ghost := n.ghost
    harmonic := n.harmonic
    palm_mute := n.palm_mute
    staccato := n.staccato
    let_ring := n.let_ring
    vibrato := n.vibrato
    tied := n.tied
    bend_value := n.bend_value
    slide_type := n.slide_type
    value := n.value }

/-- `beat.notes?.find(n => n.string === stringNumber)`. -/
def findNoteInBeat (beat : Beat) (stringNumber : Nat) : Option NoteData :=
  (beat.notes.getD []).find? (fun n => n.string == stringNumber)

/-- The voices search: the first voice containing a note for the string
wins, in voice order (`src/unnamed/part_001` lines 49-57). -/
def findNoteInVoices (beat : Beat) (stringNumber : Nat) : Option NoteData :=
  (beat.voices.getD []).findSome?
    (fun v => (v.notes.getD []).find? (fun n => n.string == stringNumber))

/-- The cell the flat-`notes` variant pushes for string index `s`
(0-based) of a beat. -/
def beatCellNotes (s : Nat) (beat : Beat) : TabNote :=
  match findNoteInBeat beat (s + 1) with
  | some n => noteCellNotes beat n
  | none => restCell beat

/-- The cell the voices variant pushes for string index `s` (0-based)
of a beat. -/
def beatCellVoices (s : Nat) (beat : Beat) : TabNote :=
  match findNoteInVoices beat (s + 1) with
  | some n => noteCellVoices beat n
  | none => restCell beat

/-- `for s in [0, stringCount): lines[s].push(cell(s))`, with `s0` the
index of the first line of `lines` (the loop is entered with `s0 = 0`). -/
def pushCellEachLine (cell : Nat → TabNote) : Nat → List (List TabNote) → List (List TabNote)
  | _, [] => []
  | s0, line :: rest => (line ++ [cell s0]) :: pushCellEachLine cell (s0 + 1) rest

/-- Process one measure: push one cell per string for each beat, then
one separator cell on every line. -/
def pushMeasure (cellFn : Nat → Beat → TabNote) (m : Measure)
    (lines : List (List TabNote)) : List (List TabNote) :=
  ((m.beats.getD []).foldl
      (fun acc b => pushCellEachLine (fun s => cellFn s b) 0 acc) lines).map
    (fun line => line ++ [sepCell])

/-- The builder loop common to both variants, starting from
`stringCount` empty lines. -/
def buildTabCells (cellFn : Nat → Beat → TabNote) (stringCount : Nat)
    (measures : List Measure) : List (List TabNote) :=
  measures.foldl (fun acc m => pushMeasure cellFn m acc)
    (List.replicate stringCount [])

/-- `buildTabLines` of `strings-view.tsx` (flat `notes` search). -/
def buildTabLines (stringCount : Nat) (measures : List Measure) : List (List TabNote) :=
  buildTabCells beatCellNotes stringCount measures

/-- `buildTabLines` of `src/unnamed/part_001` (voices search). -/
def buildTabLinesVoices (stringCount : Nat) (measures : List Measure) : List (List TabNote) :=
  buildTabCells beatCellVoices stringCount measures

/-! ## `StringsView` component logic (`strings-view.tsx`) -/

/-- One entry of `getTuningInfo`. -/
structure TuningInfo where
  stringNumber : Nat
  note : String
  midiValue : Nat
deriving DecidableEq

/-- `track.strings || track.string_count || 6`. -/
def stringCountOf (t : Track) : Nat :=
  jsOrD t.strings (jsOrD t.string_count 6)

/-- `getTuningInfo`: maps `track.tuning` when present, else `[]`. -/
def getTuningInfo (t : Track) : List TuningInfo :=
  match t.tuning with
  | some ts => ts.map (fun tu => ⟨tu.string_number, midiToNoteName tu.value, tu.value⟩)
  | none => []

/-- `stringMidiValues`: defined only when the tuning-entry count equals
the string count, else `undefined`. -/
def trackStringMidiValues (t : Track) : Option (List Nat) :=
  if (getTuningInfo t).length = stringCountOf t then
    some ((getTuningInfo t).map TuningInfo.midiValue)
  else none

/-- `buildTabLines(track)` as called by `StringsView`: evaluating
`track.measures.forEach` with `measures` absent throws a `TypeError`. -/
def buildTabLinesTrack (t : Track) : Except JsError (List (List TabNote)) :=
  match t.measures with
  | none => .error .typeError
  | some ms => .ok (buildTabLines (stringCountOf t) ms)

/-- The render outcome of `StringsView`. -/
inductive ViewOutcome where
  | noMeasures
  | missingTuning
  | tablature (stringMidiValues : List Nat) (tabLines : List (List TabNote))
deriving DecidableEq

/-- `StringsView`, in source order: `buildTabLines(track)` runs first,
then the `!track.measures || track.measures.length === 0` empty-state
branch, then the `!stringMidiValues` missing-tuning branch (the
`!track.measures` disjunct of the guard is unreachable because
`buildTabLines` has already dereferenced `track.measures`). -/
def StringsView (t : Track) : Except JsError ViewOutcome := do
  let tabLines ← buildTabLinesTrack t
  if (t.measures.getD []).isEmpty then
    return .noMeasures
  match trackStringMidiValues t with
  | none => return .missingTuning
  | some vals => return .tablature vals tabLines

/-! ## Wrapped-row layout (`renderWrappedView` in `src/unnamed/part_014`,
identical splitting loop in `src/unnamed/part_011`) -/

/-- The splitter state: finished rows, the row being filled (one cell
list per string), and the two counters of the loop. -/
structure WrapState where
  rows : List (List (List TabNote))
  currentRow : List (List TabNote)
  notesInCurrentRow : Nat
  measuresInCurrentRow : Nat
deriving DecidableEq

/-- `for s in [0, stringCount): if (tabLines[s][i]) currentRow[s].push(...)`;
`s0` is the index of the first entry of `cur` (the loop starts at 0). -/
def pushColumn (tl : List (List TabNote)) (i : Nat) : Nat → List (List TabNote) → List (List TabNote)
  | _, [] => []
  | s0, line :: rest =>
      (line ++ ((tl.getD s0 []).get? i).toList) :: pushColumn tl i (s0 + 1) rest

/-- One iteration of the splitting loop at cell index `i`: push the
column, bump `notesInCurrentRow`, and close the row when the cell on
string 0 is a measure separator that completes `measuresPerRow`
measures. -/
def wrapStep (stringCount measuresPerRow : Nat) (tl : List (List TabNote))
    (st : WrapState) (i : Nat) : WrapState :=
  let cur := pushColumn tl i 0 st.currentRow
  let notes := st.notesInCurrentRow + 1
  match (tl.getD 0 []).get? i with
  | some n =>
      if n.isMeasureSeparator then
        if measuresPerRow ≤ st.measuresInCurrentRow + 1 then
          ⟨st.rows ++ [cur], List.replicate stringCount [], 0, 0⟩
        else
          ⟨st.rows, cur, notes, st.measuresInCurrentRow + 1⟩
      else ⟨st.rows, cur, notes, st.measuresInCurrentRow⟩
  | none => ⟨st.rows, cur, notes, st.measuresInCurrentRow⟩

/-- The initial splitter state. -/
def initWrapState (stringCount : Nat) : WrapState :=
  ⟨[], List.replicate stringCount [], 0, 0⟩

/-- `Math.max(...tabLines.map(line => line.length))`; the base is 0
rather than the -Infinity of an empty spread, which leaves the loop
bounds unchanged (no iterations either way on no lines). -/
def maxNotesOf (tl : List (List TabNote)) : Nat :=
  (tl.map List.length).foldl max 0

/-- The row-splitting part of `renderWrappedView`: run the loop over
all cell indices, then push the trailing partial row when it received
any cells. -/
def renderWrappedRows (stringCount measuresPerRow : Nat)
    (tl : List (List TabNote)) : List (List (List TabNote)) :=
  let st := (List.range (maxNotesOf tl)).foldl
    (wrapStep stringCount measuresPerRow tl) (initWrapState stringCount)
  if 0 < st.notesInCurrentRow then st.rows ++ [st.currentRow] else st.rows

/-- Measure labels of one row (`renderWrappedView` lines 362-371):
walk the row's string 0, counting separators, and emit
`rowIndex * measuresPerRow + measureCount` at each. -/
def rowMeasureLabels (measuresPerRow rowIndex : Nat) (row0 : List TabNote) : List Nat :=
  (row0.foldl
      (fun (acc : Nat × List Nat) note =>
        if note.isMeasureSeparator then
          (acc.1 + 1, acc.2 ++ [rowIndex * measuresPerRow + (acc.1 + 1)])
        else acc)
      ((0 : Nat), ([] : List Nat))).2

/-- Number of measure separators in a cell list. -/
def sepCount (l : List TabNote) : Nat :=
  l.countP (fun c => c.isMeasureSeparator)

/-- Concatenation, across a list of layout rows, of the cells the rows
hold for string `s` (used to state that wrapping partitions each
string's cell sequence). -/
def lineSeg (rows : List (List (List TabNote))) (s : Nat) : List TabNote :=
  (rows.map (fun r => r.getD s [])).flatten

/-- All cells of string `s` accumulated in a splitter state: the
finished rows followed by the pending row. -/
def joinedAt (st : WrapState) (s : Nat) : List TabNote :=
  lineSeg st.rows s ++ st.currentRow.getD s []

/-- The splitter invariant: the pending row always has one entry per
string, and is all-empty right after a row was closed
(`notesInCurrentRow = 0`). -/
def WrapInv (stringCount : Nat) (st : WrapState) : Prop :=
  st.currentRow.length = stringCount ∧
    (st.notesInCurrentRow = 0 → st.currentRow = List.replicate stringCount [])

/-- The splitter state projected to string 0: finished rows' string-0
segments, the pending string-0 segment, and the two counters. All
control flow of the splitter depends only on this projection. -/
structure WrapState0 where
  rows0 : List (List TabNote)
  cur0 : List TabNote
  notes : Nat
  ms : Nat
deriving DecidableEq

/-- Project a splitter state to string 0. -/
def projWrap (st : WrapState) : WrapState0 :=
  ⟨st.rows.map (fun r => r.getD 0 []), st.currentRow.getD 0 [],
    st.notesInCurrentRow, st.measuresInCurrentRow⟩

/-- One splitter iteration as seen from string 0, consuming the
(possibly absent) string-0 cell at the current index. -/
def wrapStep0 (measuresPerRow : Nat) (st : WrapState0) (cell : Option TabNote) : WrapState0 :=
  let cur := st.cur0 ++ cell.toList
  let notes := st.notes + 1
  match cell with
  | some n =>
      if n.isMeasureSeparator then
        if measuresPerRow ≤ st.ms + 1 then ⟨st.rows0 ++ [cur], [], 0, 0⟩
        else ⟨st.rows0, cur, notes, st.ms + 1⟩
      else ⟨st.rows0, cur, notes, st.ms⟩
  | none => ⟨st.rows0, cur, notes, st.ms⟩

/-- Fold the string-0 splitter over a list of present cells. -/
def wrap0Cells (measuresPerRow : Nat) (st : WrapState0) (cells : List TabNote) : WrapState0 :=
  cells.foldl (fun a c => wrapStep0 measuresPerRow a (some c)) st

/-- Closed form of string 0 of the built lines: per measure, one cell
per beat followed by the separator. -/
def lineZero (cellFn : Nat → Beat → TabNote) (ms : List Measure) : List TabNote :=
  (ms.map (fun m => ((m.beats.getD []).map (fun b => cellFn 0 b)) ++ [sepCell])).flatten

/-- The string-0 splitter invariant after `N` processed measures of the
built lines: the counters track `N` modulo `measuresPerRow`, every
closed row holds exactly `measuresPerRow` separators, and the pending
segment holds the remainder. -/
def WrapInv0 (measuresPerRow N : Nat) (st : WrapState0) : Prop :=
  st.ms = N % measuresPerRow ∧
  st.rows0.length = N / measuresPerRow ∧
  (∀ r ∈ st.rows0, sepCount r = measuresPerRow) ∧
  sepCount st.cur0 = N % measuresPerRow ∧
  (st.notes = 0 ↔ N % measuresPerRow = 0) ∧
  (N % measuresPerRow = 0 → st.cur0 = [])

/-! ## Tuplet brackets (`src/unnamed/part_014` lines 94-143) -/

/-- The loop condition on one cell:
`currentNote?.tuplet?.enters === enters && currentNote?.tuplet?.times === times && !currentNote.isMeasureSeparator`. -/
def tupletMatches (t : Tuplet) (c : TabNote) : Bool :=
  (match c.tuplet with
   | some t2 => t2.enters == t.enters && t2.times == t.times
   | none => false) && !c.isMeasureSeparator

/-- The counting loop of `shouldShowTupletBracket`: count consecutive
matching cells, stopping at the first mismatch, at the end of the list,
or once `bound` (the tuplet's `enters`) cells were counted. -/
def countConsecutive (t : Tuplet) : List TabNote → Nat → Nat
  | _, 0 => 0
  | [], _ + 1 => 0
  | c :: rest, b + 1 =>
      if tupletMatches t c then countConsecutive t rest b + 1 else 0

/-- `shouldShowTupletBracket`: a bracket is shown at `noteIndex` of
`stringIndex` exactly when the cell has tuplet metadata, the string is
string 0, and `enters` consecutive matching cells are found on string 0
starting at `noteIndex`. -/
def shouldShowTupletBracket (allNotes : List (List TabNote))
    (stringIndex noteIndex : Nat) (note : TabNote) : Bool :=
  match note.tuplet with
  | none => false
  | some t =>
      stringIndex == 0 &&
        countConsecutive t ((allNotes.headD []).drop noteIndex) t.enters == t.enters

/-- A tuplet bracket span as rendered: start cell, width in cells
(the rendered width is `enters * 32` pixels), and the `enters:times`
label. -/
structure BracketSpan where
  startIndex : Nat
  width : Nat
  label : String
deriving DecidableEq

/-- The bracket `renderTabNote` emits at a cell (lines 125-143): present
exactly when `shouldShowTupletBracket()` holds and the cell has tuplet
metadata. -/
def tupletBracketAt (allNotes : List (List TabNote))
    (stringIndex noteIndex : Nat) (note : TabNote) : Option BracketSpan :=
  match note.tuplet with
  | none => none
  | some t =>
      if shouldShowTupletBracket allNotes stringIndex noteIndex note then
        some ⟨noteIndex, t.enters, toString t.enters ++ ":" ++ toString t.times⟩
      else none

/-! ## ASCII `TablatureView` (`src/features/ui-extensions/TablatureView.tsx`) -/

/-- The midi-value fallback of the label selection. -/
def asciiMidiLabels (stringMidiValues : Option (List Nat)) (n : Nat) : Option (List String) :=
  match stringMidiValues with
  | some vs => if vs.length = n then some (vs.map midiToNoteName) else none
  | none => none

/-- The label selection chain (lines 26-40): `stringNames` when its
length matches, else midi-derived labels when that length matches, else
nothing. -/
def asciiLabels (stringNames : Option (List String))
    (stringMidiValues : Option (List Nat)) (n : Nat) : Option (List String) :=
  match stringNames with
  | some names =>
      if names.length = n then some names
      else asciiMidiLabels stringMidiValues n
  | none => asciiMidiLabels stringMidiValues n

/-- Technique-line glyph of a cell:
`note.isMeasureSeparator ? "|" : note.technique || " "`. -/
def techGlyph (c : TabNote) : String :=
  if c.isMeasureSeparator then "|"
  else match c.technique with
       | some t => if t = "" then " " else t
       | none => " "

/-- Fret-line glyph of a cell: `note.isMeasureSeparator ? "|" : note.fret`. -/
def fretGlyph (c : TabNote) : FretValue :=
  if c.isMeasureSeparator then .mark "|" else c.fret

/-- The data the ASCII view renders: labels plus the technique and fret
lines. -/
structure AsciiRender where
  labels : List String
  techniqueLines : List (List String)
  fretLines : List (List FretValue)
deriving DecidableEq

/-- `TablatureView`: `none` models the component returning `null`
(rendering nothing). -/
def TablatureView (stringNames : Option (List String))
    (stringMidiValues : Option (List Nat))
    (tabLines : List (List TabNote)) : Option AsciiRender :=
  match asciiLabels stringNames stringMidiValues tabLines.length with
  | some ls =>
      some ⟨ls, tabLines.map (fun l => l.map techGlyph),
        tabLines.map (fun l => l.map fretGlyph)⟩
  | none => none

/-! ## Example inputs used by counterexamples and witnesses -/

/-- A note on string 1 that specifies its own duration. -/
def exNoteEighth : NoteData :=
  { string := 1, fret := 3, duration := some "eighth" }

/-- A beat that specifies a beat-level duration and contains
`exNoteEighth`. -/
def exBeatQuarter : Beat :=
  { notes := some [exNoteEighth], voices := some [{ notes := some [exNoteEighth] }],
    duration := some "quarter" }

/-- A beat with no notes. -/
def exBeatEmpty : Beat :=
  { notes := some [] }

/-- A two-beat measure. -/
def exMeasure : Measure :=
  { beats := some [exBeatQuarter, exBeatEmpty] }

/-- A two-string track with three measures and a matching tuning. -/
def exTrack : Track :=
  { strings := some 2, tuning := some [⟨1, 64⟩, ⟨2, 59⟩],
    measures := some [exMeasure, exMeasure, exMeasure] }

/-- A cell carrying `(3,2)` tuplet metadata. -/
def exTupletCell : TabNote :=
  { fret := .num 0, tuplet := some ⟨3, 2⟩ }

/-- A single-string row whose string 0 is one contiguous run of four
cells sharing tuplet `(3,2)`. -/
def exRunRow : List (List TabNote) :=
  [[exTupletCell, exTupletCell, exTupletCell, exTupletCell]]

/-! ## Lengths of the built lines (lockstep invariant) -/

/-- Total number of cells every string receives: one per beat plus one
separator per measure. -/
def measuresCellCount (ms : List Measure) : Nat :=
  (ms.map (fun m => (m.beats.getD []).length + 1)).sum

theorem pushCellEachLine_map_comp (cell : Nat → TabNote) (g : Nat → Nat) :
    ∀ (s0 : Nat) (lines : List (List TabNote)),
    (pushCellEachLine cell s0 lines).map (fun l => g l.length) =
      lines.map (fun l => g (l.length + 1)) := by
  intro s0 lines
  induction lines generalizing s0 with
  | nil => rfl
  | cons line rest ih => simp [pushCellEachLine, ih]

theorem beatsFold_map_comp (cellFn : Nat → Beat → TabNote) (g : Nat → Nat) :
    ∀ (bs : List Beat) (lines : List (List TabNote)),
    ((bs.foldl (fun acc b => pushCellEachLine (fun s => cellFn s b) 0 acc) lines).map
        (fun l => g l.length)) =
      lines.map (fun l => g (l.length + bs.length)) := by
  intro bs
  induction bs with
  | nil => simp
  | cons b rest ih =>
      intro lines
      rw [List.foldl_cons, ih]
      rw [pushCellEachLine_map_comp (fun s => cellFn s b) (fun n => g (n + rest.length)) 0 lines]
      congr 1
      funext l
      congr 1
      simp only [List.length_cons]
      omega

theorem pushMeasure_map_comp (cellFn : Nat → Beat → TabNote) (g : Nat → Nat)
    (m : Measure) (lines : List (List TabNote)) :
    (pushMeasure cellFn m lines).map (fun l => g l.length) =
      lines.map (fun l => g (l.length + ((m.beats.getD []).length + 1))) := by
  unfold pushMeasure
  rw [List.map_map]
  have h1 : ((fun l => g l.length) ∘ fun line => line ++ [sepCell]) =
      (fun (l : List TabNote) => g (l.length + 1)) := by
    funext l; simp
  rw [h1]
  rw [beatsFold_map_comp cellFn (fun n => g (n + 1)) (m.beats.getD []) lines]
  rfl

theorem buildFold_map_length (cellFn : Nat → Beat → TabNote) :
    ∀ (ms : List Measure) (lines : List (List TabNote)),
    ((ms.foldl (fun acc m => pushMeasure cellFn m acc) lines).map List.length) =
      lines.map (fun l => l.length + measuresCellCount ms) := by
  intro ms
  induction ms with
  | nil => simp [measuresCellCount]
  | cons m rest ih =>
      intro lines
      rw [List.foldl_cons, ih]
      rw [pushMeasure_map_comp cellFn (fun n => n + measuresCellCount rest) m lines]
      congr 1
      funext l
      simp only [measuresCellCount, List.map_cons, List.sum_cons]
      omega

theorem buildTabCells_map_length (cellFn : Nat → Beat → TabNote)
    (sc : Nat) (ms : List Measure) :
    (buildTabCells cellFn sc ms).map List.length =
      List.replicate sc (measuresCellCount ms) := by
  unfold buildTabCells
  rw [buildFold_map_length, List.map_replicate]
  simp

theorem buildTabCells_length (cellFn : Nat → Beat → TabNote)
    (sc : Nat) (ms : List Measure) :
    (buildTabCells cellFn sc ms).length = sc := by
  have h := congrArg List.length (buildTabCells_map_length cellFn sc ms)
  simpa using h

theorem buildTabCells_mem_length (cellFn : Nat → Beat → TabNote)
    (sc : Nat) (ms : List Measure) (l : List TabNote)
    (hl : l ∈ buildTabCells cellFn sc ms) :
    l.length = measuresCellCount ms := by
  have h1 : l.length ∈ (buildTabCells cellFn sc ms).map List.length :=
    List.mem_map_of_mem List.length hl
  rw [buildTabCells_map_length] at h1
  exact List.eq_of_mem_replicate h1

/-- C4: for every track, all per-string sequences returned by the tab
line builder have equal length; quantitatively, each string's sequence
has exactly one cell per beat plus one separator cell per measure
(`measuresCellCount`), in both source variants of `buildTabLines`. -/
theorem buildTabLines_lockstep (sc : Nat) (ms : List Measure) :
    (∀ l ∈ buildTabLines sc ms, l.length = measuresCellCount ms) ∧
    (∀ l ∈ buildTabLinesVoices sc ms, l.length = measuresCellCount ms) :=
  ⟨fun l hl => buildTabCells_mem_length _ sc ms l hl,
   fun l hl => buildTabCells_mem_length _ sc ms l hl⟩

/-- Witness for C4: on the concrete three-measure example track, the
first string's line of both variants has the predicted length 9. -/
theorem buildTabLines_lockstep_witness :
    ((buildTabLines 2 [exMeasure, exMeasure, exMeasure]).getD 0 []).length =
      measuresCellCount [exMeasure, exMeasure, exMeasure] ∧
    ((buildTabLinesVoices 2 [exMeasure, exMeasure, exMeasure]).getD 0 []).length =
      measuresCellCount [exMeasure, exMeasure, exMeasure] :=
  ⟨(buildTabLines_lockstep 2 [exMeasure, exMeasure, exMeasure]).1 _ (by decide),
   (buildTabLines_lockstep 2 [exMeasure, exMeasure, exMeasure]).2 _ (by decide)⟩

/-! ## Empty and absent measures (C6) -/

/-- C6: evaluation of `StringsView` at the two edge inputs. A track
whose `measures` collection is EMPTY is handled without error: the
builder yields `stringCount` empty per-string sequences and the
component renders the no-data placeholder. A track whose `measures`
collection is ABSENT, however, crashes: `buildTabLines(track)` is
invoked before the `!track.measures || track.measures.length === 0`
guard and dereferences `track.measures.forEach` on `undefined`, so the
guarded placeholder branch is unreachable and a `TypeError` escapes. -/
theorem stringsView_measures_edge_cases :
    StringsView { exTrack with measures := none } = .error .typeError ∧
    StringsView { exTrack with measures := some [] } = .ok .noMeasures ∧
    buildTabLines (stringCountOf { exTrack with measures := some [] }) [] =
      List.replicate 2 [] := by
  decide

/-! ## Duration precedence in note cells (C3) -/

/-- Counterexample to C3: in both builder variants the cell duration is
`beat.duration || note.duration`, so for a beat specifying "quarter"
and a matching note specifying "eighth", the emitted `Note` cell
carries the beat's "quarter", not the note's own "eighth" — beat-level
duration takes precedence, contradicting the claim. -/
theorem noteCell_duration_counterexample :
    findNoteInBeat exBeatQuarter 1 = some exNoteEighth ∧
    findNoteInVoices exBeatQuarter 1 = some exNoteEighth ∧
    exNoteEighth.duration = some "eighth" ∧
    exBeatQuarter.duration = some "quarter" ∧
    (beatCellNotes 0 exBeatQuarter).duration = some "quarter" ∧
    (beatCellVoices 0 exBeatQuarter).duration = some "quarter" ∧
    ((some "quarter" : Option String) ≠ some "eighth") := by
  decide

/-- C3 (amended): for every beat and string where a matching note is
found, the emitted `Note` cell's duration equals the beat-level
duration when the beat specifies a non-empty one, and falls back to the
note's own duration only when the beat does not specify one — in both
builder variants. -/
theorem noteCell_duration_precedence (b : Beat) (s : Nat) (n : NoteData) :
    (findNoteInBeat b (s + 1) = some n →
      (∀ d, b.duration = some d → d ≠ "" → (beatCellNotes s b).duration = some d) ∧
      (b.duration = none → (beatCellNotes s b).duration = n.duration)) ∧
    (findNoteInVoices b (s + 1) = some n →
      (∀ d, b.duration = some d → d ≠ "" → (beatCellVoices s b).duration = some d) ∧
      (b.duration = none → (beatCellVoices s b).duration = n.duration)) := by
  constructor
  · intro hfind
    constructor
    · intro d hd hne
      simp [beatCellNotes, hfind, noteCellNotes, jsOrS, hd, hne]
    · intro hd
      simp [beatCellNotes, hfind, noteCellNotes, jsOrS, hd]
  · intro hfind
    constructor
    · intro d hd hne
      simp [beatCellVoices, hfind, noteCellVoices, jsOrS, hd, hne]
    · intro hd
      simp [beatCellVoices, hfind, noteCellVoices, jsOrS, hd]

/-- Witness for the amended C3: at the concrete example beat, the found
note exists and the cell takes the beat's "quarter". -/
theorem noteCell_duration_precedence_witness :
    (beatCellNotes 0 exBeatQuarter).duration = some "quarter" :=
  ((noteCell_duration_precedence exBeatQuarter 0 exNoteEighth).1 (by decide)).1
    "quarter" (by decide) (by decide)

/-! ## Pitch namer round-trip (C8) -/

/-- C8: for every pitch `p` in [0,127], parsing the name produced for
`p` returns `p`: the sharp-preferred name with octave
`floor(p / 12) - 1` is accepted by `noteNameToMidi` and maps back to
`p`. -/
theorem midi_name_roundtrip :
    ∀ p : Nat, p < 128 → noteNameToMidi (midiToNoteName p) = .ok (p : Int) := by
  decide

/-- Witness for C8 at the concrete pitch 64 (whose name is "E4"). -/
theorem midi_name_roundtrip_witness :
    noteNameToMidi (midiToNoteName 64) = .ok 64 :=
  midi_name_roundtrip 64 (by decide)

/-! ## Missing tuning info (C5) -/

/-- C5: once layout is reached (measures present and nonempty),
`StringsView` fails with the missing-tuning state exactly when the
number of derivable string labels (the tuning entries) differs from the
string count — which equals the number of built string lines; on a
mismatch no tablature outcome is ever produced (no guessed, truncated
or padded labels). -/
theorem missingTuning_iff (t : Track) (ms : List Measure)
    (hm : t.measures = some ms) (hne : ms ≠ []) :
    (StringsView t = .ok .missingTuning ↔
      (getTuningInfo t).length ≠ stringCountOf t) ∧
    (∀ lines, buildTabLinesTrack t = .ok lines → lines.length = stringCountOf t) ∧
    ((getTuningInfo t).length ≠ stringCountOf t →
      ∀ vals lines, StringsView t ≠ .ok (.tablature vals lines)) := by
  have hemp : ms.isEmpty = false := by
    cases ms with
    | nil => exact absurd rfl hne
    | cons a l => rfl
  refine ⟨?_, ?_, ?_⟩
  · by_cases h : (getTuningInfo t).length = stringCountOf t
    · simp [StringsView, buildTabLinesTrack, hm, hemp, trackStringMidiValues, h]
    · simp [StringsView, buildTabLinesTrack, hm, hemp, trackStringMidiValues, h]
  · intro lines hl
    simp only [buildTabLinesTrack, hm, Except.ok.injEq] at hl
    rw [← hl]
    exact buildTabCells_length _ _ _
  · intro h vals lines
    simp [StringsView, buildTabLinesTrack, hm, hemp, trackStringMidiValues, h]

/-- Witness for C5: the example track with a one-entry tuning but
string count 2 renders the explicit missing-tuning state. -/
theorem missingTuning_iff_witness :
    StringsView { exTrack with tuning := some [⟨1, 64⟩] } = .ok .missingTuning :=
  ((missingTuning_iff { exTrack with tuning := some [⟨1, 64⟩] }
      [exMeasure, exMeasure, exMeasure] rfl (by decide)).1).mpr (by decide)

/-! ## ASCII view label selection (C10) -/

/-- C10: in the ASCII `TablatureView`, labels come from `stringNames`
only when its length equals `tabLines.length`; otherwise, when
`stringMidiValues` has matching length, labels are derived from the
midi values (a mismatched `stringNames` does not take precedence); when
neither count matches, the component renders nothing. -/
theorem tablatureView_label_selection (sn : Option (List String))
    (mv : Option (List Nat)) (tl : List (List TabNote)) :
    (∀ names, sn = some names → names.length = tl.length →
      ∃ r, TablatureView sn mv tl = some r ∧ r.labels = names) ∧
    ((match sn with
      | some names => names.length ≠ tl.length
      | none => True) →
      ∀ vs, mv = some vs → vs.length = tl.length →
        ∃ r, TablatureView sn mv tl = some r ∧ r.labels = vs.map midiToNoteName) ∧
    ((match sn with
      | some names => names.length ≠ tl.length
      | none => True) →
      (match mv with
       | some vs => vs.length ≠ tl.length
       | none => True) →
      TablatureView sn mv tl = none) := by
  refine ⟨?_, ?_, ?_⟩
  · intro names hsn hlen
    subst hsn
    refine ⟨⟨names, tl.map (fun l => l.map techGlyph),
      tl.map (fun l => l.map fretGlyph)⟩, ?_, rfl⟩
    simp [TablatureView, asciiLabels, hlen]
  · intro hmis vs hmv hvs
    subst hmv
    refine ⟨⟨vs.map midiToNoteName, tl.map (fun l => l.map techGlyph),
      tl.map (fun l => l.map fretGlyph)⟩, ?_, rfl⟩
    cases sn with
    | none => simp [TablatureView, asciiLabels, asciiMidiLabels, hvs]
    | some names => simp [TablatureView, asciiLabels, asciiMidiLabels, hvs, hmis]
  · intro hmis hmv
    cases sn with
    | none =>
        cases mv with
        | none => simp [TablatureView, asciiLabels, asciiMidiLabels]
        | some vs => simp [TablatureView, asciiLabels, asciiMidiLabels, hmv]
    | some names =>
        cases mv with
        | none => simp [TablatureView, asciiLabels, asciiMidiLabels, hmis]
        | some vs => simp [TablatureView, asciiLabels, asciiMidiLabels, hmis, hmv]

/-- Witness for C10: with a one-name `stringNames` against two lines
and a matching two-entry `stringMidiValues`, the rendered labels are
the midi-derived ones. -/
theorem tablatureView_label_selection_witness :
    ∃ r, TablatureView (some ["X"]) (some [40, 45]) [[exTupletCell], [exTupletCell]] =
        some r ∧ r.labels = [40, 45].map midiToNoteName :=
  (tablatureView_label_selection (some ["X"]) (some [40, 45])
      [[exTupletCell], [exTupletCell]]).2.1 (by decide) [40, 45] rfl (by decide)

/-! ## Measure label numbering (C7) -/

theorem rowLabels_foldl (k i : Nat) :
    ∀ (row0 : List TabNote) (c : Nat) (acc : List Nat),
    (row0.foldl
        (fun (a : Nat × List Nat) note =>
          if note.isMeasureSeparator then (a.1 + 1, a.2 ++ [i * k + (a.1 + 1)]) else a)
        (c, acc)) =
      (c + sepCount row0,
       acc ++ (List.range' (c + 1) (sepCount row0)).map (fun m => i * k + m)) := by
  intro row0
  induction row0 with
  | nil => simp [sepCount]
  | cons note rest ih =>
      intro c acc
      rw [List.foldl_cons]
      by_cases h : note.isMeasureSeparator
      · rw [if_pos h, ih]
        have hsep : sepCount (note :: rest) = sepCount rest + 1 := by
          simp [sepCount, List.countP_cons, h]
        rw [hsep, List.range'_succ]
        simp only [List.map_cons, List.append_assoc, List.singleton_append,
          Prod.mk.injEq]
        exact ⟨by omega, trivial⟩
      · rw [if_neg h, ih]
        have hsep : sepCount (note :: rest) = sepCount rest := by
          simp [sepCount, List.countP_cons, h]
        rw [hsep]

theorem rowMeasureLabels_eq (k i : Nat) (row0 : List TabNote) :
    rowMeasureLabels k i row0 =
      (List.range' 1 (sepCount row0)).map (fun m => i * k + m) := by
  unfold rowMeasureLabels
  rw [rowLabels_foldl]
  simp

theorem rowMeasureLabels_length (k i : Nat) (row0 : List TabNote) :
    (rowMeasureLabels k i row0).length = sepCount row0 := by
  rw [rowMeasureLabels_eq]
  simp

/-- C7: in wrapped mode, the `j`-th (0-based) measure label of row `i`
carries number `i * measuresPerRow + (j + 1)`: numbering continues the
global sequence `rowIndex * measuresPerRow + localMeasureCount` and
never restarts at 1. -/
theorem rowMeasureLabels_global (k i : Nat) (row0 : List TabNote) (j : Nat)
    (hj : j < (rowMeasureLabels k i row0).length) :
    (rowMeasureLabels k i row0).get ⟨j, hj⟩ = i * k + (j + 1) := by
  have he := rowMeasureLabels_eq k i row0
  rw [List.get_of_eq he]
  simp only [List.get_eq_getElem, List.getElem_map, List.getElem_range']
  omega

/-- Witness for C7: on a two-separator row at row index 2 with 4
measures per row, the second label (j = 1) is 2 * 4 + 2 = 10. -/
theorem rowMeasureLabels_global_witness :
    (rowMeasureLabels 4 2 [sepCell, sepCell]).get ⟨1, by decide⟩ = 10 :=
  rowMeasureLabels_global 4 2 [sepCell, sepCell] 1 (by decide)

/-! ## Tuplet brackets (C1) -/

/-- Counterexample to C1: a row whose string 0 is a single contiguous
run of four identical `(3,2)`-tuplet cells (all matching, no
separators) receives a bracket at index 0 AND at index 1 — two
overlapping spans within one contiguous run, the second one not at the
run's first cell — so it is not the case that exactly one span is
emitted per contiguous run. -/
theorem tupletBracket_counterexample :
    shouldShowTupletBracket exRunRow 0 0 exTupletCell = true ∧
    shouldShowTupletBracket exRunRow 0 1 exTupletCell = true ∧
    (∀ c ∈ exRunRow.headD [], tupletMatches ⟨3, 2⟩ c = true) ∧
    sepCount (exRunRow.headD []) = 0 := by
  decide

theorem countConsecutive_eq_bound_iff (t : Tuplet) :
    ∀ (b : Nat) (cells : List TabNote),
    countConsecutive t cells b = b ↔
      b ≤ cells.length ∧ ∀ c ∈ cells.take b, tupletMatches t c = true := by
  intro b
  induction b with
  | zero => intro cells; simp [countConsecutive]
  | succ b ih =>
      intro cells
      cases cells with
      | nil =>
          simp [countConsecutive]
      | cons c rest =>
          by_cases h : tupletMatches t c
          · have hstep : countConsecutive t (c :: rest) (b + 1) =
                countConsecutive t rest b + 1 := by
              simp [countConsecutive, h]
            rw [hstep, List.take_succ_cons]
            constructor
            · intro hc
              have hb : countConsecutive t rest b = b := by omega
              have hr := (ih rest).mp hb
              refine ⟨by simpa using Nat.succ_le_succ hr.1, ?_⟩
              intro x hx
              rcases List.mem_cons.mp hx with hx | hx
              · rw [hx]; exact h
              · exact hr.2 x hx
            · intro hc
              have hlen : b ≤ rest.length := by
                have := hc.1
                simpa using Nat.le_of_succ_le_succ (by simpa using this)
              have hb := (ih rest).mpr
                ⟨hlen, fun x hx => hc.2 x (List.mem_cons.mpr (Or.inr hx))⟩
              omega
          · have hzero : countConsecutive t (c :: rest) (b + 1) = 0 := by
              simp [countConsecutive, h]
            rw [hzero, List.take_succ_cons]
            constructor
            · intro hc
              omega
            · intro hc
              exact absurd (hc.2 c (List.mem_cons.mpr (Or.inl rfl))) (by simpa using h)

/-- C1 (amended): brackets appear only on string index 0; on string 0 a
bracket is emitted at cell index `i` exactly when the cell's tuplet is
`(enters, times)` and the `enters` consecutive cells of string 0
starting at `i` all exist and match `(enters, times)` without a
separator; the emitted span then has width `enters` and label
`enters:times`. Consequently a maximal run of exactly `enters` matching
cells yields one span at its first cell and a shorter (e.g. trailing)
run yields none, but a run longer than `enters` yields overlapping
spans at every index from which `enters` matching cells extend — not
exactly one span per contiguous run. -/
theorem tupletBracket_characterization (row : List (List TabNote)) (i : Nat)
    (note : TabNote) (t : Tuplet) (ht : note.tuplet = some t) :
    (∀ s, s ≠ 0 → shouldShowTupletBracket row s i note = false) ∧
    (shouldShowTupletBracket row 0 i note = true ↔
      t.enters ≤ ((row.headD []).drop i).length ∧
        ∀ c ∈ ((row.headD []).drop i).take t.enters, tupletMatches t c = true) ∧
    (shouldShowTupletBracket row 0 i note = true →
      tupletBracketAt row 0 i note =
        some ⟨i, t.enters, toString t.enters ++ ":" ++ toString t.times⟩) := by
  refine ⟨?_, ?_, ?_⟩
  · intro s hs
    simp [shouldShowTupletBracket, ht, hs]
  · simp only [shouldShowTupletBracket, ht, beq_self_eq_true, Bool.true_and,
      beq_iff_eq]
    exact countConsecutive_eq_bound_iff t t.enters ((row.headD []).drop i)
  · intro hshow
    simp [tupletBracketAt, ht, hshow]

/-- Witness for the amended C1: at the start of the four-cell `(3,2)`
run, the bracket is emitted with width 3 and label "3:2". -/
theorem tupletBracket_characterization_witness :
    tupletBracketAt exRunRow 0 0 exTupletCell =
      some ⟨0, 3, toString 3 ++ ":" ++ toString 2⟩ :=
  (tupletBracket_characterization exRunRow 0 exTupletCell ⟨3, 2⟩ rfl).2.2 (by decide)

/-! ## Wrapped rows partition the cell sequences (C9) -/

theorem getD_replicate_nil :
    ∀ (n s : Nat), (List.replicate n ([] : List TabNote)).getD s [] = [] := by
  intro n
  induction n with
  | zero => intro s; cases s <;> rfl
  | succ n ih =>
      intro s
      cases s with
      | zero => rfl
      | succ s => simp only [List.replicate, List.getD_cons_succ]; exact ih s

theorem pushColumn_length (tl : List (List TabNote)) (i : Nat) :
    ∀ (s0 : Nat) (cur : List (List TabNote)),
    (pushColumn tl i s0 cur).length = cur.length := by
  intro s0 cur
  induction cur generalizing s0 with
  | nil => rfl
  | cons line rest ih => simp [pushColumn, ih]

theorem pushColumn_getD (tl : List (List TabNote)) (i : Nat) :
    ∀ (cur : List (List TabNote)) (s0 s : Nat), s < cur.length →
    (pushColumn tl i s0 cur).getD s [] =
      cur.getD s [] ++ ((tl.getD (s0 + s) []).get? i).toList := by
  intro cur
  induction cur with
  | nil => intro s0 s hs; simp at hs
  | cons line rest ih =>
      intro s0 s hs
      cases s with
      | zero => simp [pushColumn]
      | succ s =>
          have hs2 : s < rest.length := by simpa using hs
          have := ih (s0 + 1) s hs2
          simpa [pushColumn, Nat.add_assoc, Nat.add_comm, Nat.add_left_comm] using this

theorem wrapStep_inv (sc k : Nat) (tl : List (List TabNote)) (st : WrapState)
    (i : Nat) (h : WrapInv sc st) : WrapInv sc (wrapStep sc k tl st i) := by
  obtain ⟨hlen, _⟩ := h
  unfold WrapInv wrapStep
  rcases hcell : (tl.getD 0 []).get? i with _ | n
  · simp [pushColumn_length, hlen]
  · by_cases hsep : n.isMeasureSeparator
    · by_cases hclose : k ≤ st.measuresInCurrentRow + 1
      · simp [hsep, hclose]
      · simp [hsep, hclose, pushColumn_length, hlen]
    · simp [hsep, pushColumn_length, hlen]

theorem lineSeg_append_single (rows : List (List (List TabNote)))
    (r : List (List TabNote)) (s : Nat) :
    lineSeg (rows ++ [r]) s = lineSeg rows s ++ r.getD s [] := by
  simp [lineSeg]

theorem joinedAt_wrapStep (sc k : Nat) (tl : List (List TabNote)) (st : WrapState)
    (i s : Nat) (hs : s < sc) (hlen : st.currentRow.length = sc) :
    joinedAt (wrapStep sc k tl st i) s =
      joinedAt st s ++ ((tl.getD s []).get? i).toList := by
  have hs2 : s < st.currentRow.length := by rw [hlen]; exact hs
  have hpush := pushColumn_getD tl i st.currentRow 0 s hs2
  simp only [Nat.zero_add] at hpush
  rcases hcell : (tl.getD 0 []).get? i with _ | n
  · simp only [wrapStep, hcell, joinedAt]
    rw [hpush, List.append_assoc]
  · by_cases hsep : n.isMeasureSeparator
    · by_cases hclose : k ≤ st.measuresInCurrentRow + 1
      · simp only [wrapStep, hcell, hsep, if_true, hclose, joinedAt]
        rw [lineSeg_append_single, getD_replicate_nil, hpush]
        rw [List.append_nil, List.append_assoc]
      · simp only [wrapStep, hcell, hsep, if_true]
        rw [if_neg hclose]
        simp only [joinedAt]
        rw [hpush, List.append_assoc]
    · simp only [wrapStep, hcell]
      rw [if_neg hsep]
      simp only [joinedAt]
      rw [hpush, List.append_assoc]

theorem wrapGo_inv (sc k : Nat) (tl : List (List TabNote)) :
    ∀ (idxs : List Nat) (st : WrapState), WrapInv sc st →
    WrapInv sc (idxs.foldl (wrapStep sc k tl) st) := by
  intro idxs
  induction idxs with
  | nil => intro st h; exact h
  | cons i rest ih =>
      intro st h
      exact ih _ (wrapStep_inv sc k tl st i h)

theorem joinedAt_wrapGo (sc k : Nat) (tl : List (List TabNote)) :
    ∀ (idxs : List Nat) (st : WrapState), WrapInv sc st → ∀ s, s < sc →
    joinedAt (idxs.foldl (wrapStep sc k tl) st) s =
      joinedAt st s ++ idxs.filterMap (fun i => (tl.getD s []).get? i) := by
  intro idxs
  induction idxs with
  | nil => intro st _ s _; simp
  | cons i rest ih =>
      intro st h s hs
      rw [List.foldl_cons]
      rw [ih _ (wrapStep_inv sc k tl st i h) s hs]
      rw [joinedAt_wrapStep sc k tl st i s hs h.1]
      rw [List.filterMap_cons]
      rcases hcell : (tl.getD s []).get? i with _ | n
      · simp only [hcell, Option.toList, List.append_nil]
      · simp only [hcell, Option.toList, List.append_assoc, List.singleton_append]

theorem lineSeg_renderWrappedRows (sc k : Nat) (tl : List (List TabNote))
    (s : Nat) (hs : s < sc) :
    lineSeg (renderWrappedRows sc k tl) s =
      (List.range (maxNotesOf tl)).filterMap (fun i => (tl.getD s []).get? i) := by
  have hinv0 : WrapInv sc (initWrapState sc) := ⟨by simp [initWrapState], fun _ => rfl⟩
  have hinv := wrapGo_inv sc k tl (List.range (maxNotesOf tl)) _ hinv0
  have hjoin := joinedAt_wrapGo sc k tl (List.range (maxNotesOf tl)) _ hinv0 s hs
  have hjinit : joinedAt (initWrapState sc) s = [] := by
    simp [joinedAt, initWrapState, lineSeg, getD_replicate_nil]
  rw [hjinit] at hjoin
  simp only [List.nil_append] at hjoin
  unfold renderWrappedRows
  by_cases hnotes :
      0 < ((List.range (maxNotesOf tl)).foldl (wrapStep sc k tl) (initWrapState sc)).notesInCurrentRow
  · rw [if_pos hnotes, lineSeg_append_single]
    exact hjoin
  · rw [if_neg hnotes]
    have h0 : ((List.range (maxNotesOf tl)).foldl (wrapStep sc k tl)
        (initWrapState sc)).notesInCurrentRow = 0 := by omega
    have hrep := hinv.2 h0
    rw [← hjoin, joinedAt, hrep, getD_replicate_nil]
    simp

theorem filterMap_get?_range' :
    ∀ (n i : Nat) (l : List TabNote), i + n = l.length →
    (List.range' i n).filterMap l.get? = l.drop i := by
  intro n
  induction n with
  | zero =>
      intro i l hi
      have : i = l.length := by omega
      subst this
      simp [List.range']
  | succ n ih =>
      intro i l hi
      have hlt : i < l.length := by omega
      rw [List.range'_succ, List.filterMap_cons]
      have hget : l.get? i = some (l.get ⟨i, hlt⟩) := by
        rw [List.get?_eq_getElem?, List.getElem?_eq_getElem hlt]
        rfl
      rw [hget]
      simp only []
      rw [ih (i + 1) l (by omega)]
      rw [List.get_eq_getElem]
      exact (List.drop_eq_getElem_cons hlt).symm

theorem foldl_max_replicate_self :
    ∀ (m a : Nat), (List.replicate m a).foldl max a = a := by
  intro m
  induction m with
  | zero => intro a; rfl
  | succ m ih => intro a; simpa [List.replicate, max_self] using ih a

theorem maxNotesOf_eq (tl : List (List TabNote)) (L : Nat) (hne : tl ≠ [])
    (hlen : ∀ l ∈ tl, l.length = L) : maxNotesOf tl = L := by
  have hmap : tl.map List.length = List.replicate (tl.map List.length).length L := by
    apply List.eq_replicate_of_mem
    intro x hx
    rcases List.mem_map.mp hx with ⟨l, hl, hxl⟩
    rw [← hxl]
    exact hlen l hl
  have hpos : 0 < (tl.map List.length).length := by
    simp only [List.length_map]
    exact List.length_pos.mpr hne
  unfold maxNotesOf
  rw [hmap]
  rcases hn : (tl.map List.length).length with _ | m
  · rw [hn] at hpos; exact absurd hpos (by simp)
  · simp only [List.replicate, List.foldl_cons, Nat.zero_max]
    exact foldl_max_replicate_self m L

/-- C9: given tab lines whose per-string lengths are all equal, the
wrapped-mode row split partitions every string's sequence: for each
string, concatenating that string's row segments in row order yields
exactly the original cell sequence — no cell dropped, duplicated, or
reordered — for every `measuresPerRow ≥ 1`. -/
theorem wrappedRows_partition (tl : List (List TabNote)) (k L s : Nat)
    (_hk : 1 ≤ k) (hlen : ∀ l ∈ tl, l.length = L) (hs : s < tl.length) :
    lineSeg (renderWrappedRows tl.length k tl) s = tl.getD s [] := by
  have hne : tl ≠ [] := by
    intro h; subst h; simp at hs
  rw [lineSeg_renderWrappedRows tl.length k tl s hs]
  rw [maxNotesOf_eq tl L hne hlen]
  have hmem : tl.getD s [] ∈ tl := by
    rw [List.getD_eq_getElem tl [] hs]
    exact List.getElem_mem hs
  have hlL : (tl.getD s []).length = L := hlen _ hmem
  rw [List.range_eq_range']
  rw [filterMap_get?_range' L 0 (tl.getD s []) (by omega)]
  exact List.drop_zero _

/-- Witness for C9: on the built lines of a one-measure two-string
track (all lengths 3), the wrapped split at 2 measures per row
reassembles string 0 exactly. -/
theorem wrappedRows_partition_witness :
    lineSeg (renderWrappedRows (buildTabLines 2 [exMeasure]).length 2
        (buildTabLines 2 [exMeasure])) 0 =
      (buildTabLines 2 [exMeasure]).getD 0 [] :=
  wrappedRows_partition (buildTabLines 2 [exMeasure]) 2 3 0 (by decide)
    (by decide) (by decide)

/-! ## Wrapped-row count and last-row measure count (C2) -/

theorem mod_succ_of_eq (j k : Nat) (hk : 1 ≤ k) (hj : j % k = k - 1) :
    (j + 1) % k = 0 ∧ (j + 1) / k = j / k + 1 := by
  have hd := Nat.div_add_mod j k
  have h1 : j + 1 = k * (j / k + 1) := by
    rw [Nat.mul_succ]
    omega
  constructor
  · rw [h1]; exact Nat.mul_mod_right k _
  · rw [h1]; exact Nat.mul_div_cancel_left _ (by omega)

theorem mod_succ_of_lt (j k : Nat) (hk : 1 ≤ k) (hj : j % k < k - 1) :
    (j + 1) % k = j % k + 1 ∧ (j + 1) / k = j / k := by
  have hd := Nat.div_add_mod j k
  have h1 : j + 1 = (j % k + 1) + k * (j / k) := by omega
  have hmlt : j % k < k := Nat.mod_lt _ (by omega)
  constructor
  · rw [h1, Nat.add_mul_mod_self_left]
    exact Nat.mod_eq_of_lt (by omega)
  · rw [h1, Nat.add_mul_div_left _ _ (by omega : 0 < k)]
    rw [Nat.div_eq_of_lt (by omega)]
    omega

theorem ceil_div_split (N k : Nat) (hk : 1 ≤ k) :
    (N % k = 0 → (N + k - 1) / k = N / k) ∧
    (N % k ≠ 0 → (N + k - 1) / k = N / k + 1) := by
  have hd := Nat.div_add_mod N k
  have hmlt : N % k < k := Nat.mod_lt _ (by omega)
  constructor
  · intro hr
    have h1 : N + k - 1 = (k - 1) + k * (N / k) := by omega
    rw [h1, Nat.add_mul_div_left _ _ (by omega : 0 < k), Nat.div_eq_of_lt (by omega)]
    omega
  · intro hr
    have h1 : N + k - 1 = (N % k - 1) + k * (N / k + 1) := by
      rw [Nat.mul_succ]
      omega
    rw [h1, Nat.add_mul_div_left _ _ (by omega : 0 < k), Nat.div_eq_of_lt (by omega)]
    omega

theorem beatCellNotes_nonsep (s : Nat) (b : Beat) :
    (beatCellNotes s b).isMeasureSeparator = false := by
  unfold beatCellNotes
  cases findNoteInBeat b (s + 1) with
  | none => rfl
  | some n => rfl

theorem sepCount_append (a b : List TabNote) :
    sepCount (a ++ b) = sepCount a + sepCount b := by
  simp [sepCount, List.countP_append]

theorem sepCount_beatCells (bs : List Beat) :
    sepCount (bs.map (fun b => beatCellNotes 0 b)) = 0 := by
  simp only [sepCount, List.countP_eq_zero]
  intro c hc
  rcases List.mem_map.mp hc with ⟨b, _, hcb⟩
  rw [← hcb]
  simp [beatCellNotes_nonsep]

theorem sepCount_sepCell : sepCount [sepCell] = 1 := rfl

theorem pushCellEachLine_length (cell : Nat → TabNote) :
    ∀ (s0 : Nat) (lines : List (List TabNote)),
    (pushCellEachLine cell s0 lines).length = lines.length := by
  intro s0 lines
  induction lines generalizing s0 with
  | nil => rfl
  | cons l rest ih => simp [pushCellEachLine, ih]

theorem pushCellEachLine_getD0 (cell : Nat → TabNote) (lines : List (List TabNote))
    (h : 0 < lines.length) :
    (pushCellEachLine cell 0 lines).getD 0 [] = lines.getD 0 [] ++ [cell 0] := by
  cases lines with
  | nil => simp at h
  | cons l rest => rfl

theorem beatsFold_length (cellFn : Nat → Beat → TabNote) :
    ∀ (bs : List Beat) (lines : List (List TabNote)),
    (bs.foldl (fun acc b => pushCellEachLine (fun s => cellFn s b) 0 acc) lines).length =
      lines.length := by
  intro bs
  induction bs with
  | nil => intro lines; rfl
  | cons b rest ih =>
      intro lines
      rw [List.foldl_cons, ih, pushCellEachLine_length]

theorem beatsFold_getD0 (cellFn : Nat → Beat → TabNote) :
    ∀ (bs : List Beat) (lines : List (List TabNote)), 0 < lines.length →
    (bs.foldl (fun acc b => pushCellEachLine (fun s => cellFn s b) 0 acc) lines).getD 0 [] =
      lines.getD 0 [] ++ bs.map (fun b => cellFn 0 b) := by
  intro bs
  induction bs with
  | nil => intro lines _; simp
  | cons b rest ih =>
      intro lines h
      rw [List.foldl_cons, ih _ (by rw [pushCellEachLine_length]; exact h)]
      rw [pushCellEachLine_getD0 _ _ h]
      simp [List.append_assoc]

theorem pushMeasure_length (cellFn : Nat → Beat → TabNote) (m : Measure)
    (lines : List (List TabNote)) :
    (pushMeasure cellFn m lines).length = lines.length := by
  unfold pushMeasure
  rw [List.length_map, beatsFold_length]

theorem map_sep_getD0 (ls : List (List TabNote)) (h : 0 < ls.length) :
    (ls.map (fun line => line ++ [sepCell])).getD 0 [] = ls.getD 0 [] ++ [sepCell] := by
  cases ls with
  | nil => simp at h
  | cons a rest => rfl

theorem pushMeasure_getD0 (cellFn : Nat → Beat → TabNote) (m : Measure)
    (lines : List (List TabNote)) (h : 0 < lines.length) :
    (pushMeasure cellFn m lines).getD 0 [] =
      lines.getD 0 [] ++ ((m.beats.getD []).map (fun b => cellFn 0 b) ++ [sepCell]) := by
  unfold pushMeasure
  rw [map_sep_getD0 _ (by rw [beatsFold_length]; exact h)]
  rw [beatsFold_getD0 _ _ _ h]
  rw [List.append_assoc]

theorem buildFold_getD0 (cellFn : Nat → Beat → TabNote) :
    ∀ (ms : List Measure) (lines : List (List TabNote)), 0 < lines.length →
    (ms.foldl (fun acc m => pushMeasure cellFn m acc) lines).getD 0 [] =
      lines.getD 0 [] ++ lineZero cellFn ms := by
  intro ms
  induction ms with
  | nil => intro lines _; simp [lineZero]
  | cons m rest ih =>
      intro lines h
      rw [List.foldl_cons, ih _ (by rw [pushMeasure_length]; exact h)]
      rw [pushMeasure_getD0 _ _ _ h]
      simp [lineZero, List.append_assoc]

theorem buildTabCells_getD0 (cellFn : Nat → Beat → TabNote) (sc : Nat)
    (hsc : 1 ≤ sc) (ms : List Measure) :
    (buildTabCells cellFn sc ms).getD 0 [] = lineZero cellFn ms := by
  unfold buildTabCells
  rw [buildFold_getD0 _ _ _ (by simpa using hsc)]
  rw [getD_replicate_nil]
  simp

theorem projWrap_wrapStep (sc k : Nat) (tl : List (List TabNote)) (st : WrapState)
    (i : Nat) (hsc : 1 ≤ sc) (hlen : st.currentRow.length = sc) :
    projWrap (wrapStep sc k tl st i) =
      wrapStep0 k (projWrap st) ((tl.getD 0 []).get? i) := by
  have h0 : 0 < st.currentRow.length := by omega
  have hpush := pushColumn_getD tl i st.currentRow 0 0 h0
  simp only [Nat.zero_add] at hpush
  rcases hcell : (tl.getD 0 []).get? i with _ | n
  · rw [hcell] at hpush
    simp only [wrapStep, hcell, wrapStep0, projWrap]
    rw [hpush]
  · rw [hcell] at hpush
    by_cases hsep : n.isMeasureSeparator
    · by_cases hclose : k ≤ st.measuresInCurrentRow + 1
      · simp only [wrapStep, hcell, hsep, if_true, hclose, wrapStep0, projWrap,
          List.map_append, List.map_cons, List.map_nil]
        rw [hpush, getD_replicate_nil]
      · simp only [wrapStep, hcell, hsep, if_true, wrapStep0, projWrap]
        rw [if_neg hclose, if_neg hclose, hpush]
    · simp only [wrapStep, hcell, wrapStep0, projWrap]
      rw [if_neg hsep, if_neg hsep, hpush]

theorem projWrap_wrapGo (sc k : Nat) (tl : List (List TabNote)) (hsc : 1 ≤ sc) :
    ∀ (idxs : List Nat) (st : WrapState), WrapInv sc st →
    projWrap (idxs.foldl (wrapStep sc k tl) st) =
      idxs.foldl (fun a i => wrapStep0 k a ((tl.getD 0 []).get? i)) (projWrap st) := by
  intro idxs
  induction idxs with
  | nil => intro st _; rfl
  | cons i rest ih =>
      intro st h
      rw [List.foldl_cons, List.foldl_cons, ih _ (wrapStep_inv sc k tl st i h),
        projWrap_wrapStep sc k tl st i hsc h.1]

theorem foldl_wrapStep0_range' (k : Nat) :
    ∀ (n i : Nat) (l : List TabNote), i + n = l.length → ∀ (a : WrapState0),
    (List.range' i n).foldl (fun st j => wrapStep0 k st (l.get? j)) a =
      wrap0Cells k a (l.drop i) := by
  intro n
  induction n with
  | zero =>
      intro i l hi a
      have hil : i = l.length := by omega
      subst hil
      simp [List.range', wrap0Cells]
  | succ n ih =>
      intro i l hi a
      have hlt : i < l.length := by omega
      rw [List.range'_succ, List.foldl_cons]
      have hget : l.get? i = some (l.get ⟨i, hlt⟩) := by
        rw [List.get?_eq_getElem?, List.getElem?_eq_getElem hlt]
        rfl
      rw [hget, ih (i + 1) l (by omega)]
      have hdrop : l.drop i = l.get ⟨i, hlt⟩ :: l.drop (i + 1) := by
        rw [List.get_eq_getElem]
        exact List.drop_eq_getElem_cons hlt
      rw [hdrop]
      rfl

theorem wrap0Cells_nonsep (k : Nat) :
    ∀ (cells : List TabNote) (st : WrapState0),
    (∀ c ∈ cells, c.isMeasureSeparator = false) →
    wrap0Cells k st cells =
      ⟨st.rows0, st.cur0 ++ cells, st.notes + cells.length, st.ms⟩ := by
  intro cells
  induction cells with
  | nil =>
      intro st _
      cases st
      simp [wrap0Cells]
  | cons c rest ih =>
      intro st h
      have hc : c.isMeasureSeparator = false := h c (by simp)
      have hstep : wrapStep0 k st (some c) =
          ⟨st.rows0, st.cur0 ++ [c], st.notes + 1, st.ms⟩ := by
        simp [wrapStep0, hc]
      rw [show wrap0Cells k st (c :: rest) =
        wrap0Cells k (wrapStep0 k st (some c)) rest from rfl]
      rw [hstep, ih _ (fun x hx => h x (by simp [hx]))]
      have hcur : (st.cur0 ++ [c]) ++ rest = st.cur0 ++ c :: rest := by simp
      have hn : st.notes + 1 + rest.length = st.notes + (c :: rest).length := by
        simp only [List.length_cons]
        omega
      rw [hcur, hn]

theorem measureStep0 (k : Nat) (hk : 1 ≤ k) (j : Nat) (st : WrapState0)
    (cells : List TabNote) (hcells : ∀ c ∈ cells, c.isMeasureSeparator = false)
    (hcellsep : sepCount cells = 0)
    (hinv : WrapInv0 k j st) :
    WrapInv0 k (j + 1) (wrap0Cells k st (cells ++ [sepCell])) := by
  obtain ⟨hms, hrows, hrowsep, hcur, hnotes, hcur0⟩ := hinv
  have hsplit : wrap0Cells k st (cells ++ [sepCell]) =
      wrapStep0 k (wrap0Cells k st cells) (some sepCell) := by
    simp [wrap0Cells, List.foldl_append]
  rw [hsplit, wrap0Cells_nonsep k cells st hcells]
  have hmlt : j % k < k := Nat.mod_lt _ (by omega)
  have hsepc : sepCell.isMeasureSeparator = true := rfl
  by_cases hclose : k ≤ st.ms + 1
  · have hj : j % k = k - 1 := by omega
    obtain ⟨hm0, hd0⟩ := mod_succ_of_eq j k hk hj
    have hstep : wrapStep0 k
        ⟨st.rows0, st.cur0 ++ cells, st.notes + cells.length, st.ms⟩ (some sepCell) =
        ⟨st.rows0 ++ [(st.cur0 ++ cells) ++ [sepCell]], [], 0, 0⟩ := by
      simp [wrapStep0, hsepc, hclose]
    rw [hstep]
    unfold WrapInv0
    dsimp only
    refine ⟨by omega, ?_, ?_, ?_, ?_, fun _ => rfl⟩
    · simp only [List.length_append, List.length_cons, List.length_nil]
      omega
    · intro r hr
      rcases List.mem_append.mp hr with hr | hr
      · exact hrowsep r hr
      · rcases List.mem_singleton.mp hr with rfl
        rw [sepCount_append, sepCount_append, hcur, hcellsep, sepCount_sepCell]
        omega
    · have hz : sepCount [] = 0 := rfl
      omega
    · constructor
      · intro _; omega
      · intro _; rfl
  · have hj : j % k < k - 1 := by omega
    obtain ⟨hm1, hd1⟩ := mod_succ_of_lt j k hk hj
    have hstep : wrapStep0 k
        ⟨st.rows0, st.cur0 ++ cells, st.notes + cells.length, st.ms⟩ (some sepCell) =
        ⟨st.rows0, (st.cur0 ++ cells) ++ [sepCell],
          st.notes + cells.length + 1, st.ms + 1⟩ := by
      simp [wrapStep0, hsepc, hclose]
    rw [hstep]
    unfold WrapInv0
    dsimp only
    refine ⟨by omega, by omega, hrowsep, ?_, ?_, ?_⟩
    · rw [sepCount_append, sepCount_append, hcur, hcellsep, sepCount_sepCell]
      omega
    · constructor
      · intro hcontra; omega
      · intro hcontra; omega
    · intro hcontra
      exfalso
      omega

theorem wrap0Cells_measures (k : Nat) (hk : 1 ≤ k) :
    ∀ (ms : List Measure) (j : Nat) (st : WrapState0), WrapInv0 k j st →
    WrapInv0 k (j + ms.length) (wrap0Cells k st (lineZero beatCellNotes ms)) := by
  intro ms
  induction ms with
  | nil =>
      intro j st h
      have hz : lineZero beatCellNotes [] = [] := by simp [lineZero]
      rw [hz]
      exact h
  | cons m rest ih =>
      intro j st h
      have hline : lineZero beatCellNotes (m :: rest) =
          (((m.beats.getD []).map (fun b => beatCellNotes 0 b)) ++ [sepCell]) ++
            lineZero beatCellNotes rest := by
        simp [lineZero]
      rw [hline]
      rw [show wrap0Cells k st
          ((((m.beats.getD []).map (fun b => beatCellNotes 0 b)) ++ [sepCell]) ++
            lineZero beatCellNotes rest) =
          wrap0Cells k
            (wrap0Cells k st
              (((m.beats.getD []).map (fun b => beatCellNotes 0 b)) ++ [sepCell]))
            (lineZero beatCellNotes rest) from by
        simp [wrap0Cells, List.foldl_append]]
      have h1 := measureStep0 k hk j st
        ((m.beats.getD []).map (fun b => beatCellNotes 0 b))
        (fun c hc => by
          rcases List.mem_map.mp hc with ⟨b, _, hcb⟩
          rw [← hcb]
          exact beatCellNotes_nonsep 0 b)
        (sepCount_beatCells _) h
      have h2 := ih (j + 1) _ h1
      have hlen : j + (m :: rest).length = j + 1 + rest.length := by
        simp only [List.length_cons]
        omega
      rw [hlen]
      exact h2

/-- C2: for every track with `N ≥ 1` measures laid out in wrapped mode
with `measuresPerRow = k ≥ 1` (and at least one string), the number of
produced rows is `ceil(N / k) = (N + k - 1) / k`, and the last row
carries `N mod k` measure separators on string 0 (`k` when `N` is
divisible by `k`); in particular a trailing partial group of measures
still yields a final row. -/
theorem wrappedRows_count (sc k : Nat) (ms : List Measure)
    (hsc : 1 ≤ sc) (hk : 1 ≤ k) (hne : ms ≠ []) :
    (renderWrappedRows sc k (buildTabLines sc ms)).length =
      (ms.length + k - 1) / k ∧
    ∃ lastRow,
      (renderWrappedRows sc k (buildTabLines sc ms)).getLast? = some lastRow ∧
      sepCount (lastRow.getD 0 []) =
        (if ms.length % k = 0 then k else ms.length % k) := by
  have hN1 : 1 ≤ ms.length := by
    rcases ms with _ | ⟨m, rest⟩
    · exact absurd rfl hne
    · simp
  have hlenall : ∀ l ∈ buildTabLines sc ms, l.length = measuresCellCount ms :=
    fun l hl => buildTabCells_mem_length _ _ _ l hl
  have htllen : (buildTabLines sc ms).length = sc := buildTabCells_length _ _ _
  have htlne : buildTabLines sc ms ≠ [] := by
    intro hcontra
    rw [hcontra] at htllen
    simp at htllen
    omega
  have hmax : maxNotesOf (buildTabLines sc ms) = measuresCellCount ms :=
    maxNotesOf_eq _ _ htlne hlenall
  have hline0 : (buildTabLines sc ms).getD 0 [] = lineZero beatCellNotes ms :=
    buildTabCells_getD0 _ sc hsc ms
  have hL : ((buildTabLines sc ms).getD 0 []).length = measuresCellCount ms := by
    apply hlenall
    rw [List.getD_eq_getElem (buildTabLines sc ms) [] (by omega)]
    exact List.getElem_mem _
  have hinv0 : WrapInv sc (initWrapState sc) := ⟨by simp [initWrapState], fun _ => rfl⟩
  have hprojinit : projWrap (initWrapState sc) = ⟨[], [], 0, 0⟩ := by
    simp [projWrap, initWrapState, getD_replicate_nil]
  set st := (List.range (maxNotesOf (buildTabLines sc ms))).foldl
      (wrapStep sc k (buildTabLines sc ms)) (initWrapState sc) with hst
  have hrw : renderWrappedRows sc k (buildTabLines sc ms) =
      if 0 < st.notesInCurrentRow then st.rows ++ [st.currentRow] else st.rows := rfl
  have hproj := projWrap_wrapGo sc k (buildTabLines sc ms) hsc
    (List.range (maxNotesOf (buildTabLines sc ms))) _ hinv0
  have hrange :
      (List.range (maxNotesOf (buildTabLines sc ms))).foldl
        (fun a i => wrapStep0 k a (((buildTabLines sc ms).getD 0 []).get? i))
        (projWrap (initWrapState sc)) =
      wrap0Cells k (projWrap (initWrapState sc)) ((buildTabLines sc ms).getD 0 []) := by
    rw [List.range_eq_range', hmax, ← hL]
    rw [foldl_wrapStep0_range' k (((buildTabLines sc ms).getD 0 []).length) 0 _
      (by omega) _]
    rw [List.drop_zero]
  have hinvN : WrapInv0 k ms.length
      (wrap0Cells k ⟨[], [], 0, 0⟩ (lineZero beatCellNotes ms)) := by
    have hbase : WrapInv0 k 0 ⟨[], [], 0, 0⟩ := by
      refine ⟨by simp, by simp, ?_, by simp [sepCount], by simp, fun _ => rfl⟩
      intro r hr
      simp at hr
    have h1 := wrap0Cells_measures k hk ms 0 _ hbase
    simpa using h1
  have hinvP : WrapInv0 k ms.length (projWrap st) := by
    rw [hst, hproj, hrange, hprojinit, hline0]
    exact hinvN
  have hrowslen : st.rows.length = ms.length / k := by
    have h2 := hinvP.2.1
    simpa [projWrap] using h2
  have hrowsepP : ∀ r ∈ st.rows.map (fun r => r.getD 0 []), sepCount r = k := by
    have h3 := hinvP.2.2.1
    simpa [projWrap] using h3
  have hcurSep : sepCount (st.currentRow.getD 0 []) = ms.length % k := by
    have h4 := hinvP.2.2.2.1
    simpa [projWrap] using h4
  have hnotesIff : st.notesInCurrentRow = 0 ↔ ms.length % k = 0 := by
    have h5 := hinvP.2.2.2.2.1
    simpa [projWrap] using h5
  by_cases hr : ms.length % k = 0
  · have hnotes0 : st.notesInCurrentRow = 0 := hnotesIff.mpr hr
    have hif : ¬ 0 < st.notesInCurrentRow := by omega
    rw [hrw, if_neg hif]
    have hdivpos : 1 ≤ ms.length / k := by
      have hd := Nat.div_add_mod ms.length k
      by_contra hcon
      have hz : ms.length / k = 0 := by omega
      rw [hz, Nat.mul_zero] at hd
      omega
    constructor
    · rw [hrowslen, (ceil_div_split ms.length k hk).1 hr]
    · have hrne : st.rows ≠ [] := by
        intro hcon
        rw [hcon] at hrowslen
        simp at hrowslen
        omega
      refine ⟨st.rows.getLast hrne, List.getLast?_eq_getLast _ hrne, ?_⟩
      have hmem : (st.rows.getLast hrne).getD 0 [] ∈
          st.rows.map (fun r => r.getD 0 []) :=
        List.mem_map_of_mem _ (List.getLast_mem hrne)
      rw [if_pos hr]
      exact hrowsepP _ hmem
  · have hnotespos : st.notesInCurrentRow ≠ 0 := fun h0 => hr (hnotesIff.mp h0)
    rw [hrw, if_pos (by omega)]
    constructor
    · rw [List.length_append, List.length_cons, List.length_nil, hrowslen,
        (ceil_div_split ms.length k hk).2 hr]
    · refine ⟨st.currentRow, List.getLast?_concat _, ?_⟩
      rw [if_neg hr]
      exact hcurSep

/-- Witness for C2: three measures wrapped at two per row yield two
rows, the last carrying a single (= 3 mod 2) measure separator. -/
theorem wrappedRows_count_witness :
    (renderWrappedRows 2 2 (buildTabLines 2 [exMeasure, exMeasure, exMeasure])).length =
      ([exMeasure, exMeasure, exMeasure].length + 2 - 1) / 2 ∧
    ∃ lastRow,
      (renderWrappedRows 2 2
          (buildTabLines 2 [exMeasure, exMeasure, exMeasure])).getLast? =
        some lastRow ∧
      sepCount (lastRow.getD 0 []) =
        (if [exMeasure, exMeasure, exMeasure].length % 2 = 0 then 2
         else [exMeasure, exMeasure, exMeasure].length % 2) :=
  wrappedRows_count 2 2 [exMeasure, exMeasure, exMeasure] (by decide) (by decide)
    (by decide)

end GuitarTab
